import Mathlib

/-!
# Verification of the dataset-manager storage / schema-evolution subsystem

Shallow embedding of the masking engine, pagination helpers, schema
evolution, batch listing order, and the frontend schema/permission
reducers, together with theorems settling the specification claims.

Python `str` values are embedded as Lean `String`; a Python function that
can raise on some input is embedded as a function into `Option`, with
`none` marking the raised exception.
-/

namespace DatasetManager

/-! ## Masking engine (`DataMasker`, design doc part_000 lines 1093-1164) -/

/-- Python `re.sub(r'\D', '', s)`: the digit characters of `s`, in order. -/
def digitsOf (s : String) : List Char :=
  s.data.filter Char.isDigit

/-- Python `l[-n:]` on a list: the last `n` elements (all of them when
`l.length ≤ n`). -/
def lastN (n : Nat) (l : List Char) : List Char :=
  l.drop (l.length - n)

/-- Python `s.split('@', 1)` after an `'@' in s` check: `none` when `s` has
no `'@'`, otherwise `some (local_, domain)` split at the first `'@'`. -/
def splitAtSign : List Char → Option (List Char × List Char)
  | [] => none
  | c :: cs =>
    if c = '@' then some ([], cs)
    else match splitAtSign cs with
      | some (a, b) => some (c :: a, b)
      | none => none

/-- `DataMasker.mask_email`.  `none` embeds the `IndexError` that
`local[0]` raises when the local part is empty (value starts with `'@'`). -/
def mask_email (email : String) : Option String :=
  match splitAtSign email.data with
  | none => some email
  | some (loc, dom) =>
    if loc.length ≤ 2 then
      match loc with
      | [] => none
      | c :: _ => some ⟨[c] ++ "***@".data ++ dom⟩
    else some ⟨loc.take 2 ++ "***@".data ++ dom⟩

/-- Modelled from the spec: `mask_partial_email` is referenced by
`mask_value`'s dispatch table but its body is absent from the sources; the
spec and the built-in rule table give `partial_email` the same behaviour
as `email` (`john.doe@example.com -> jo***@example.com`). -/
def maskPartialEmail (email : String) : Option String :=
  mask_email email

/-- `DataMasker.mask_phone`: keep only digits; fewer than 4 digits gives
`"***"`, otherwise `"***-***-"` followed by the last four digits. -/
def mask_phone (phone : String) : String :=
  let digits := digitsOf phone
  if digits.length < 4 then "***"
  else ⟨"***-***-".data ++ lastN 4 digits⟩

/-- `DataMasker.mask_ssn`: keep only digits; fewer than 4 digits gives
`"***"`, otherwise `"***-**-"` followed by the last four digits. -/
def mask_ssn (ssn : String) : String :=
  let digits := digitsOf ssn
  if digits.length < 4 then "***"
  else ⟨"***-**-".data ++ lastN 4 digits⟩

/-- `DataMasker.mask_credit_card`: keep only digits; fewer than 4 digits
gives `"****"`, otherwise `"****-****-****-"` and the last four digits. -/
def mask_credit_card (cc : String) : String :=
  let digits := digitsOf cc
  if digits.length < 4 then "****"
  else ⟨"****-****-****-".data ++ lastN 4 digits⟩

/-- Separator-preserving split of a character list, like Python
`s.split(sep)` with an explicit separator (empty fields kept). -/
def splitTokens (sep : Char) : List Char → List (List Char)
  | [] => [[]]
  | c :: cs =>
    match splitTokens sep cs with
    | [] => [[]]
    | t :: ts => if c = sep then [] :: t :: ts else (c :: t) :: ts

/-- Inverse of `splitTokens`: interleave the separator between tokens. -/
def joinTokens (sep : Char) : List (List Char) → List Char
  | [] => []
  | [t] => t
  | t :: ts => t ++ sep :: joinTokens sep ts

/-- Modelled from the spec: `mask_name` is referenced by `mask_value` but
its body is absent from the sources; per the spec, keep the first
character of each whitespace-delimited token and redact the remainder
(`John Michael Doe -> J*** M*** D***`). -/
def maskName (v : String) : String :=
  ⟨joinTokens ' ' ((splitTokens ' ' v.data).map fun t => t.take 1 ++ "***".data)⟩

/-- Modelled from the spec: `mask_partial_text` is referenced by
`mask_value` but its body is absent from the sources; per the spec it
keeps the first character of each whitespace-delimited token and redacts
the remainder, like `name`. -/
def maskPartialText (v : String) : String :=
  maskName v

/-- Modelled from the spec: `mask_ip` is referenced by `mask_value` but
its body is absent from the sources; per the spec, retain the first two
dotted segments (`192.168.1.100 -> 192.168.***.***`). -/
def maskIp (v : String) : String :=
  let segs := splitTokens '.' v.data
  ⟨joinTokens '.' (segs.take 2 ++ (segs.drop 2).map fun _ => "***".data)⟩

/-- Modelled from the spec: `mask_redact` is referenced by `mask_value`
but its body is absent from the sources; per the spec it returns a
fixed-length mask regardless of input. -/
def maskRedact (_ : String) : String :=
  "********"

/-- Modelled from the spec: a deterministic stand-in for the one-way
digest used by `mask_hash`, whose body is absent from the sources. -/
def digestOf (v : String) : Nat :=
  v.data.foldl (fun a c => (a * 31 + c.toNat) % 4294967296) 5381

/-- Modelled from the spec: `mask_hash` is referenced by `mask_value` but
its body is absent from the sources; per the spec it returns a
fixed-length prefix of a one-way digest of the value. -/
def maskHash (v : String) : String :=
  ⟨(Nat.toDigits 16 (digestOf v)).take 8⟩

/-- Decimal value of a digit-character list. -/
def digitsToNat (l : List Char) : Nat :=
  l.foldl (fun a c => a * 10 + (c.toNat - 48)) 0

/-- Modelled from the spec: integer parsing of the raw cell value used by
the numeric-round rule (`int(value)` on an optionally signed decimal). -/
def parseInt : List Char → Option Int
  | [] => none
  | '-' :: rest =>
    if rest ≠ [] ∧ rest.all Char.isDigit then some (-(digitsToNat rest : Int))
    else none
  | l =>
    if l.all Char.isDigit then some (digitsToNat l) else none

/-- Modelled from the spec: `mask_numeric_round` is referenced by
`mask_value` but its body is absent from the sources; per the spec it
rounds to the nearest multiple of 100 (`12345 -> 12300`); a non-numeric
value is left unchanged. -/
def maskNumericRound (v : String) : String :=
  match parseInt v.data with
  | some n => toString (((n + 50).fdiv 100) * 100)
  | none => v

/-- Scanner state of the `re.compile` validity model: in the pattern
proper (tracking the open-group depth), or inside a character class —
`classStart`/`classNeg` record that a `']'` is still literal (right after
`'['` or `'[^'`). -/
inductive ReState where
  | normal (depth : Nat)
  | classStart (depth : Nat)
  | classNeg (depth : Nat)
  | classBody (depth : Nat)

/-- Modelled from the spec: whether `re.compile(pattern)` succeeds (the
`re` library itself is not part of the sources).  The model is exact on
group balancing (`(` without `)` and stray `)` raise), character-class
termination (`[` without a closing `]`, with the literal-`']'` rule right
after `'['` or `'[^'`), and a trailing backslash; compilation errors
outside these (e.g. a misplaced quantifier) are not modelled, and such
patterns are deemed compilable. -/
def reValidAux : List Char → ReState → Bool
  | [], .normal d => d == 0
  | [], .classStart _ => false
  | [], .classNeg _ => false
  | [], .classBody _ => false
  | c :: rest, .normal d =>
    if c = '\\' then
      match rest with
      | [] => false
      | _ :: r2 => reValidAux r2 (.normal d)
    else if c = '(' then reValidAux rest (.normal (d + 1))
    else if c = ')' then
      match d with
      | 0 => false
      | d' + 1 => reValidAux rest (.normal d')
    else if c = '[' then reValidAux rest (.classStart d)
    else reValidAux rest (.normal d)
  | c :: rest, .classStart d =>
    if c = '\\' then
      match rest with
      | [] => false
      | _ :: r2 => reValidAux r2 (.classBody d)
    else if c = '^' then reValidAux rest (.classNeg d)
    else reValidAux rest (.classBody d)
  | c :: rest, .classNeg d =>
    if c = '\\' then
      match rest with
      | [] => false
      | _ :: r2 => reValidAux r2 (.classBody d)
    else reValidAux rest (.classBody d)
  | c :: rest, .classBody d =>
    if c = '\\' then
      match rest with
      | [] => false
      | _ :: r2 => reValidAux r2 (.classBody d)
    else if c = ']' then reValidAux rest (.normal d)
    else reValidAux rest (.classBody d)

/-- `re.compile(pattern)` succeeds, per the model above. -/
def reValid (pattern : List Char) : Bool :=
  reValidAux pattern (.normal 0)

/-- `re.sub('', '***', value)`: an empty pattern matches at every
position, so the mask is inserted before every character and at the end
(`'ab' -> '***a***b***'`). -/
def interleaveMask : List Char → List Char
  | [] => "***".data
  | c :: cs => "***".data ++ c :: interleaveMask cs

/-- Fuel-bounded replacement of every non-overlapping occurrence of
`pat`, left to right; fuel equal to the value's length suffices whenever
`pat` is nonempty. -/
def replaceAllAux (pat mask : List Char) : Nat → List Char → List Char
  | _, [] => []
  | 0, l => l
  | fuel + 1, c :: cs =>
    if pat.isPrefixOf (c :: cs) then
      mask ++ replaceAllAux pat mask fuel ((c :: cs).drop pat.length)
    else c :: replaceAllAux pat mask fuel cs

/-- Modelled from the spec: the `re.sub(pattern, '***', value)` call of
the `custom:<pattern>` branch.  Compilation failure raises `re.error`,
embedded as `none` (so an invalid pattern such as `(` makes the read
raise); a compiled pattern substitutes every match with `'***'` —
modelled exactly for metacharacter-free patterns (literal non-overlapping
replacement, and the empty pattern inserts the mask at every position),
and by the same literal replacement as a stand-in for compilable patterns
outside that fragment. -/
def reSub (pattern value : String) : Option String :=
  if reValid pattern.data then
    match pattern.data with
    | [] => some ⟨interleaveMask value.data⟩
    | l => some ⟨replaceAllAux l "***".data value.data.length value.data⟩
  else none

/-- `DataMasker.mask_value` (part_000 lines 1132-1164): admin passthrough,
then dispatch on the rule name; unknown rules other than `custom:*` pass
the value through.  `none` embeds a raised exception. -/
def mask_value (value rule role : String) : Option String :=
  if role = "admin" then some value
  else if rule = "email" then mask_email value
  else if rule = "partial_email" then maskPartialEmail value
  else if rule = "phone" then some (mask_phone value)
  else if rule = "ssn" then some (mask_ssn value)
  else if rule = "credit_card" then some (mask_credit_card value)
  else if rule = "name" then some (maskName value)
  else if rule = "partial_text" then some (maskPartialText value)
  else if rule = "ip" then some (maskIp value)
  else if rule = "redact" then some (maskRedact value)
  else if rule = "hash" then some (maskHash value)
  else if rule = "numeric_round" then some (maskNumericRound value)
  else if "custom:".data.isPrefixOf rule.data then reSub ⟨rule.data.drop 7⟩ value
  else some value

/-- The rule names `mask_value` dispatches on (the keys of its
`masking_functions` dictionary). -/
def knownRules : List String :=
  ["email", "partial_email", "phone", "ssn", "credit_card", "name",
   "partial_text", "ip", "redact", "hash", "numeric_round"]

end DatasetManager

namespace DatasetManager

example : mask_value "" "phone" "viewer" = some "***" := by decide
example : mask_value "@x" "email" "viewer" = none := by decide
example : mask_value "john.doe@example.com" "email" "viewer"
    = some "jo***@example.com" := by decide
example : mask_value "jo@example.com" "email" "viewer"
    = some "j***@example.com" := by decide
example : mask_value "+1-555-123-4567" "phone" "viewer"
    = some "***-***-4567" := by decide
example : mask_value "123-45-6789" "ssn" "viewer" = some "***-**-6789" := by decide
example : mask_value "4532-1234-5678-9010" "credit_card" "viewer"
    = some "****-****-****-9010" := by decide
example : mask_value "x" "bogus" "viewer" = some "x" := by decide
example : mask_value "John Michael Doe" "name" "viewer"
    = some "J*** M*** D***" := by decide
example : mask_value "192.168.1.100" "ip" "viewer" = some "192.168.***.***" := by decide
example : mask_value "12345" "numeric_round" "viewer" = some "12300" := by decide
example : mask_value "a-b-a" "custom:a" "viewer" = some "***-b-***" := by decide
example : mask_value "ab" "custom:" "viewer" = some "***a***b***" := by decide
example : mask_value "x" "custom:(" "viewer" = none := by decide
example : mask_value "x" "custom:[ab" "viewer" = none := by decide
example : reValid "[]]".data = true := by decide
example : reValid "[]".data = false := by decide
example : reValid "(a)|b".data = true := by decide

/-- C1: for every value and every rule, the admin role sees the raw value. -/
theorem admin_sees_raw (v r : String) : mask_value v r "admin" = some v := by
  simp [mask_value]

/-- Splitting at the first `'@'` succeeds exactly as decomposition. -/
lemma splitAtSign_some {l loc dom : List Char}
    (h : splitAtSign l = some (loc, dom)) :
    l = loc ++ '@' :: dom ∧ '@' ∉ loc := by
  induction l generalizing loc dom with
  | nil => simp [splitAtSign] at h
  | cons c cs ih =>
    by_cases hc : c = '@'
    · subst hc
      unfold splitAtSign at h
      rw [if_pos rfl] at h
      obtain ⟨h1, h2⟩ := Prod.mk.injEq .. ▸ Option.some.inj h
      subst h1; subst h2
      simp
    · unfold splitAtSign at h
      rw [if_neg hc] at h
      cases hs : splitAtSign cs with
      | none => rw [hs] at h; cases h
      | some p =>
        obtain ⟨a, b⟩ := p
        rw [hs] at h
        obtain ⟨h1, h2⟩ := Prod.mk.injEq .. ▸ Option.some.inj h
        subst h2
        obtain ⟨ha, hb⟩ := ih hs
        subst h1
        constructor
        · rw [ha]; rfl
        · intro hm
          rcases List.mem_cons.1 hm with h | h
          · exact hc h.symm
          · exact hb h

/-- Splitting the explicit decomposition recovers its parts. -/
lemma splitAtSign_append (loc dom : List Char) (h : '@' ∉ loc) :
    splitAtSign (loc ++ '@' :: dom) = some (loc, dom) := by
  induction loc with
  | nil => simp [splitAtSign]
  | cons c cs ih =>
    have hc : ¬ c = '@' := fun e => h (by rw [e]; exact List.mem_cons_self ..)
    have ih' := ih fun m => h (List.mem_cons_of_mem _ m)
    show splitAtSign (c :: (cs ++ '@' :: dom)) = _
    unfold splitAtSign
    rw [if_neg hc, ih']

/-- Unfolding `mask_email` when the split fails (no `'@'`). -/
lemma mask_email_of_split_none {v : String}
    (h : splitAtSign v.data = none) : mask_email v = some v := by
  unfold mask_email; rw [h]

/-- Unfolding `mask_email` when the split succeeds. -/
lemma mask_email_of_split_some {v : String} {loc dom : List Char}
    (h : splitAtSign v.data = some (loc, dom)) :
    mask_email v =
      if loc.length ≤ 2 then
        match loc with
        | [] => none
        | c :: _ => some ⟨[c] ++ "***@".data ++ dom⟩
      else some ⟨loc.take 2 ++ "***@".data ++ dom⟩ := by
  unfold mask_email; rw [h]

/-- `mask_email` raises (modelled by `none`) exactly on values whose first
character is `'@'`, i.e. values with an `'@'` and an empty local part. -/
lemma mask_email_eq_none_iff (v : String) :
    mask_email v = none ↔ v.data.head? = some '@' := by
  constructor
  · intro h
    cases hs : splitAtSign v.data with
    | none => rw [mask_email_of_split_none hs] at h; cases h
    | some p =>
      obtain ⟨loc, dom⟩ := p
      rw [mask_email_of_split_some hs] at h
      obtain ⟨hl, _⟩ := splitAtSign_some hs
      cases loc with
      | nil => rw [hl]; rfl
      | cons c a =>
        by_cases h2 : (c :: a).length ≤ 2
        · rw [if_pos h2] at h; exact absurd h (by simp)
        · rw [if_neg h2] at h; exact absurd h (by simp)
  · intro h
    cases hd : v.data with
    | nil => rw [hd] at h; cases h
    | cons c cs =>
      rw [hd] at h
      have hc : c = '@' := Option.some.inj h
      subst hc
      have hs : splitAtSign v.data = some ([], cs) := by
        rw [hd]; unfold splitAtSign; rw [if_pos rfl]
      rw [mask_email_of_split_some hs]
      rfl

/-- Every `mask_value` branch other than the email maskers and the
fallible `custom:` branch returns. -/
lemma mask_value_isSome_of_ne (v r role : String)
    (h0 : "custom:".data.isPrefixOf r.data = false)
    (h1 : r ≠ "email") (h2 : r ≠ "partial_email") :
    ∃ w, mask_value v r role = some w := by
  by_cases hrole : role = "admin"
  · exact ⟨v, by simp [mask_value, hrole]⟩
  by_cases h3 : r = "phone"
  · exact ⟨mask_phone v, by simp [mask_value, hrole, h1, h2, h3]⟩
  by_cases h4 : r = "ssn"
  · exact ⟨mask_ssn v, by simp [mask_value, hrole, h1, h2, h3, h4]⟩
  by_cases h5 : r = "credit_card"
  · exact ⟨mask_credit_card v, by simp [mask_value, hrole, h1, h2, h3, h4, h5]⟩
  by_cases h6 : r = "name"
  · exact ⟨maskName v, by simp [mask_value, hrole, h1, h2, h3, h4, h5, h6]⟩
  by_cases h7 : r = "partial_text"
  · exact ⟨maskPartialText v, by simp [mask_value, hrole, h1, h2, h3, h4, h5, h6, h7]⟩
  by_cases h8 : r = "ip"
  · exact ⟨maskIp v, by simp [mask_value, hrole, h1, h2, h3, h4, h5, h6, h7, h8]⟩
  by_cases h9 : r = "redact"
  · exact ⟨maskRedact v, by simp [mask_value, hrole, h1, h2, h3, h4, h5, h6, h7, h8, h9]⟩
  by_cases h10 : r = "hash"
  · exact ⟨maskHash v, by simp [mask_value, hrole, h1, h2, h3, h4, h5, h6, h7, h8, h9, h10]⟩
  by_cases h11 : r = "numeric_round"
  · exact ⟨maskNumericRound v, by
      simp [mask_value, hrole, h1, h2, h3, h4, h5, h6, h7, h8, h9, h10, h11]⟩
  exact ⟨v, by
    simp [mask_value, hrole, h1, h2, h3, h4, h5, h6, h7, h8, h9, h10, h11, h0]⟩

/-- Away from the `custom:` rules, `mask_value` raises only through the
email maskers, on an empty local part. -/
lemma mask_value_eq_none_iff (v r role : String)
    (h0 : "custom:".data.isPrefixOf r.data = false) :
    mask_value v r role = none ↔
      role ≠ "admin" ∧ (r = "email" ∨ r = "partial_email") ∧
        mask_email v = none := by
  constructor
  · intro h
    by_cases hrole : role = "admin"
    · simp [mask_value, hrole] at h
    refine ⟨hrole, ?_, ?_⟩
    · by_contra hc
      rw [not_or] at hc
      obtain ⟨w, hw⟩ := mask_value_isSome_of_ne v r role h0 hc.1 hc.2
      rw [hw] at h
      cases h
    · by_cases h1 : r = "email"
      · simpa [mask_value, hrole, h1] using h
      by_cases h2 : r = "partial_email"
      · simpa [mask_value, maskPartialEmail, hrole, h1, h2] using h
      obtain ⟨w, hw⟩ := mask_value_isSome_of_ne v r role h0 h1 h2
      rw [hw] at h
      cases h
  · rintro ⟨hrole, hr | hr, hme⟩ <;> subst hr <;>
      simp [mask_value, maskPartialEmail, hrole, hme]

/-- C2 counterexample: an empty input under rule `phone` is not returned
unchanged; with rule `email` a value with an empty local part makes
`mask_value` raise (`IndexError`) rather than return; and the `custom:`
branch raises `re.error` on an invalid pattern such as `custom:(`. -/
theorem mask_total_cex :
    mask_value "" "phone" "viewer" = some "***" ∧ ("***" : String) ≠ "" ∧
      mask_value "@x" "email" "viewer" = none ∧
      mask_value "x" "custom:(" "viewer" = none := by
  refine ⟨by decide, by decide, by decide, by decide⟩

/-- C2 amended: for every rule not of the form `custom:<pattern>`,
`mask_value` returns without raising except for rules
`email`/`partial_email` on a value whose first character is `'@'` (empty
local part, Python `IndexError`); an unknown rule name (no `custom:`
prefix) passes the input through unchanged for every role.  `custom:`
rules compile their pattern at read time and raise `re.error` on an
invalid pattern.  Null/empty inputs are not special-cased. -/
theorem mask_total_amended (v r role : String) :
    ("custom:".data.isPrefixOf r.data = false →
      (mask_value v r role = none ↔
        role ≠ "admin" ∧ (r = "email" ∨ r = "partial_email") ∧
          v.data.head? = some '@'))
    ∧ (r ∉ knownRules → "custom:".data.isPrefixOf r.data = false →
        mask_value v r role = some v) := by
  constructor
  · intro h0
    rw [mask_value_eq_none_iff v r role h0, mask_email_eq_none_iff]
  · intro h1 h2
    simp only [knownRules, List.mem_cons, List.not_mem_nil, or_false,
      not_or] at h1
    obtain ⟨e1, e2, e3, e4, e5, e6, e7, e8, e9, e10, e11⟩ := h1
    by_cases hrole : role = "admin" <;>
      simp [mask_value, hrole, e1, e2, e3, e4, e5, e6, e7, e8, e9, e10, e11, h2]

/-- C2 amended, witness. -/
theorem mask_total_amended_witness :
    mask_value "x" "bogus" "viewer" = some "x" ∧
      mask_value "@x" "email" "viewer" = none :=
  ⟨(mask_total_amended "x" "bogus" "viewer").2 (by decide) (by decide),
   ((mask_total_amended "@x" "email" "viewer").1 (by decide)).2
     ⟨by decide, Or.inl rfl, by decide⟩⟩

/-- C3: `mask_value` is deterministic — two calls on identical
value/rule/role triples give identical results. -/
theorem mask_deterministic (v₁ v₂ r₁ r₂ role₁ role₂ : String)
    (hv : v₁ = v₂) (hr : r₁ = r₂) (hrole : role₁ = role₂) :
    mask_value v₁ r₁ role₁ = mask_value v₂ r₂ role₂ := by
  rw [hv, hr, hrole]

/-- C3 witness. -/
theorem mask_deterministic_witness :
    mask_value "a@b.c" "email" "viewer" = mask_value "a@b.c" "email" "viewer" :=
  mask_deterministic "a@b.c" "a@b.c" "email" "email" "viewer" "viewer"
    rfl rfl rfl

/-- C4 counterexample: on a two-character local part the code keeps only
the first character, not the first two as claimed. -/
theorem mask_email_cex :
    mask_value "jo@example.com" "email" "viewer" = some "j***@example.com" ∧
      ("j***@example.com" : String) ≠ "jo***@example.com" := by
  refine ⟨by decide, by decide⟩

/-- C4 amended: for non-admin roles, `email`/`partial_email` keep the
first two characters of the local part when it is longer than two
characters, otherwise only its first character, then redact with `***`
and keep the domain; the local part must be nonempty. -/
theorem mask_email_amended (loc dom : List Char) (role : String)
    (hrole : role ≠ "admin") (hat : '@' ∉ loc) (hne : loc ≠ []) :
    (2 < loc.length →
      mask_value ⟨loc ++ '@' :: dom⟩ "email" role
          = some ⟨loc.take 2 ++ "***@".data ++ dom⟩ ∧
        mask_value ⟨loc ++ '@' :: dom⟩ "partial_email" role
          = some ⟨loc.take 2 ++ "***@".data ++ dom⟩)
    ∧ (loc.length ≤ 2 →
      mask_value ⟨loc ++ '@' :: dom⟩ "email" role
          = some ⟨loc.take 1 ++ "***@".data ++ dom⟩ ∧
        mask_value ⟨loc ++ '@' :: dom⟩ "partial_email" role
          = some ⟨loc.take 1 ++ "***@".data ++ dom⟩) := by
  have hmv : ∀ ru : String, ru = "email" ∨ ru = "partial_email" →
      mask_value ⟨loc ++ '@' :: dom⟩ ru role = mask_email ⟨loc ++ '@' :: dom⟩ := by
    intro ru hru
    rcases hru with h | h <;> subst h <;>
      simp [mask_value, maskPartialEmail, hrole]
  have hsplit : splitAtSign (String.data ⟨loc ++ '@' :: dom⟩) = some (loc, dom) :=
    splitAtSign_append loc dom hat
  constructor
  · intro hlen
    have hle : ¬ loc.length ≤ 2 := by omega
    constructor <;>
      · rw [hmv _ (by simp), mask_email_of_split_some hsplit, if_neg hle]
  · intro hlen
    cases loc with
    | nil => exact absurd rfl hne
    | cons c a =>
      constructor <;>
        · rw [hmv _ (by simp), mask_email_of_split_some hsplit, if_pos hlen]
          rfl

/-- C4 amended, witness. -/
theorem mask_email_amended_witness :
    mask_value ⟨"john".data ++ '@' :: "ex.com".data⟩ "email" "viewer"
      = some ⟨"john".data.take 2 ++ "***@".data ++ "ex.com".data⟩ :=
  ((mask_email_amended "john".data "ex.com".data "viewer" (by decide)
    (by decide) (by decide)).1 (by decide)).1

/-- C5 counterexample: an input with fewer than four digits is mapped to
the bare token, which retains none of its digits. -/
theorem mask_last4_cex :
    mask_value "12" "phone" "viewer" = some "***" ∧
      "***".data.filter Char.isDigit = [] ∧
      "12".data.filter Char.isDigit ≠ [] := by
  refine ⟨by decide, by decide, by decide⟩

/-- C5 amended: for non-admin roles and inputs with at least four digit
characters, `phone`/`ssn`/`credit_card` keep exactly the last four digits
behind the rule's fixed token; inputs with fewer than four digits map to
the bare token (`***`, resp. `****`). -/
theorem mask_last4_amended (v role : String) (hrole : role ≠ "admin") :
    (4 ≤ (digitsOf v).length →
      mask_value v "phone" role
          = some ⟨"***-***-".data ++ lastN 4 (digitsOf v)⟩ ∧
        mask_value v "ssn" role
          = some ⟨"***-**-".data ++ lastN 4 (digitsOf v)⟩ ∧
        mask_value v "credit_card" role
          = some ⟨"****-****-****-".data ++ lastN 4 (digitsOf v)⟩)
    ∧ ((digitsOf v).length < 4 →
      mask_value v "phone" role = some "***" ∧
        mask_value v "ssn" role = some "***" ∧
        mask_value v "credit_card" role = some "****") := by
  constructor
  · intro h4
    have hlt : ¬ (digitsOf v).length < 4 := by omega
    refine ⟨?_, ?_, ?_⟩ <;>
      simp [mask_value, hrole, mask_phone, mask_ssn, mask_credit_card, hlt]
  · intro h4
    refine ⟨?_, ?_, ?_⟩ <;>
      simp [mask_value, hrole, mask_phone, mask_ssn, mask_credit_card, h4]

/-- C5 amended, witness. -/
theorem mask_last4_amended_witness :
    mask_value "+1-555-123-4567" "phone" "viewer"
      = some ⟨"***-***-".data ++ lastN 4 (digitsOf "+1-555-123-4567")⟩ :=
  ((mask_last4_amended "+1-555-123-4567" "viewer" (by decide)).1 (by decide)).1

/-! ## Pagination (part_000 lines 1053-1087, frontend common.types.ts) -/

/-- `PaginationParams`: page number and page size of a paginated read. -/
structure PaginationParams where
  page : Nat
  page_size : Nat
deriving DecidableEq, Repr

/-- `PaginationParams.offset`: offset for the database query. -/
def PaginationParams.offset (p : PaginationParams) : Nat :=
  (p.page - 1) * p.page_size

/-- `PaginationParams.limit`: limit for the database query. -/
def PaginationParams.limit (p : PaginationParams) : Nat :=
  p.page_size

/-- `PaginatedResponse`: the paginated response wrapper (both the Pydantic
model and the frontend `common.types.ts` interface). -/
structure PaginatedResponse (T : Type) where
  total : Nat
  page : Nat
  page_size : Nat
  pages : Nat
  items : List T
deriving DecidableEq, Repr

/-- `PaginatedResponse.create`: factory with
`pages = (total + page_size - 1) // page_size`. -/
def PaginatedResponse.create {T : Type} (items : List T) (total : Nat)
    (params : PaginationParams) : PaginatedResponse T :=
  { total := total
    page := params.page
    page_size := params.page_size
    pages := (total + params.page_size - 1) / params.page_size
    items := items }

example :
    (PaginatedResponse.create [10, 20] 25 ⟨2, 10⟩).pages = 3 := by decide
example :
    (PaginatedResponse.create ([] : List Nat) 0 ⟨1, 10⟩).pages = 0 := by decide
example : (⟨3, 100⟩ : PaginationParams).offset = 200 := by decide

/-- C8: within the declared bounds (page ≥ 1, 1 ≤ page_size ≤ 1000) a
paginated response carries the given items and total, its `pages` field is
the ceiling of `total / page_size` (characterized as the least `k` with
`total ≤ page_size * k`), and the query offset is `(page - 1) * page_size`. -/
theorem paginated_create_spec {T : Type} (items : List T) (total : Nat)
    (params : PaginationParams) (_hp : 1 ≤ params.page)
    (hs1 : 1 ≤ params.page_size) (_hs2 : params.page_size ≤ 1000) :
    (PaginatedResponse.create items total params).items = items ∧
      (PaginatedResponse.create items total params).total = total ∧
      (PaginatedResponse.create items total params).page = params.page ∧
      (∀ k, (PaginatedResponse.create items total params).pages ≤ k ↔
        total ≤ params.page_size * k) ∧
      params.offset = (params.page - 1) * params.page_size := by
  refine ⟨rfl, rfl, rfl, ?_, rfl⟩
  intro k
  show (total + params.page_size - 1) / params.page_size ≤ k ↔ _
  rw [Nat.div_le_iff_le_mul_add_pred hs1]
  have h1 : total + params.page_size - 1 = total + (params.page_size - 1) := by
    omega
  rw [h1, Nat.add_le_add_iff_right]

/-- C8 witness. -/
theorem paginated_create_spec_witness :
    (PaginatedResponse.create [10, 20] 25 ⟨2, 10⟩).pages ≤ 3 ∧
      (25 : Nat) ≤ 10 * 3 := by
  have h := paginated_create_spec [10, 20] 25 ⟨2, 10⟩ (by decide) (by decide)
    (by decide)
  exact ⟨(h.2.2.2.1 3).2 (by decide), by decide⟩

/-! ## Schema registry (`dataset_schema` DDL part_000 lines 201-215,
`DatasetColumn` part_005 lines 30-38) -/

/-- A row of `dataset_schema`: versioned column metadata with soft-delete
support (`is_active`, `removed_at`).  Timestamps are modelled as `Nat`. -/
structure SchemaColumn where
  column_name : String
  column_type : String
  is_nullable : Bool
  is_masked : Bool
  mask_rule : Option String
  position : Nat
  version : Nat
  is_active : Bool
  added_at : Nat
  removed_at : Option Nat
deriving DecidableEq, Repr

/-- Modelled from the spec: the backend `evolveSchema` body is absent from
the sources (only the `dataset_schema` DDL and the frontend types are
present).  Per §4.1, columns present in both keep their metadata, columns
absent from the new inferred set are marked inactive with a removal
timestamp (never physically deleted), and new names are appended as
active columns at the next version. -/
def evolveSchema (cols : List SchemaColumn) (inferred : List (String × String))
    (nextVersion now : Nat) : List SchemaColumn :=
  let names := inferred.map Prod.fst
  let retained := cols.map fun c =>
    if c.is_active = true ∧ c.column_name ∉ names then
      { c with is_active := false, removed_at := some now }
    else c
  let fresh := inferred.filter fun p => ¬ cols.any fun c => c.column_name = p.1
  retained ++ fresh.enum.map fun q =>
    { column_name := q.2.1
      column_type := q.2.2
      is_nullable := true
      is_masked := false
      mask_rule := none
      position := cols.length + q.1
      version := nextVersion
      is_active := true
      added_at := now
      removed_at := none }

/-- C6: schema evolution never physically deletes a column — every column
name survives into the full listing — and a column active before the
evolution but absent from the new inferred set is kept with
`is_active = false` and the removal timestamp. -/
theorem schema_soft_delete (cols : List SchemaColumn)
    (inferred : List (String × String)) (ver now : Nat) :
    (∀ c ∈ cols, ∃ c' ∈ evolveSchema cols inferred ver now,
      c'.column_name = c.column_name) ∧
    (∀ c ∈ cols, c.is_active = true → c.column_name ∉ inferred.map Prod.fst →
      ∃ c' ∈ evolveSchema cols inferred ver now,
        c'.column_name = c.column_name ∧ c'.is_active = false ∧
          c'.removed_at = some now) := by
  constructor
  · intro c hc
    refine ⟨if c.is_active = true ∧ c.column_name ∉ inferred.map Prod.fst then
      { c with is_active := false, removed_at := some now } else c, ?_, ?_⟩
    · exact List.mem_append_left _ (List.mem_map_of_mem _ hc)
    · split <;> rfl
  · intro c hc hact habs
    refine ⟨{ c with is_active := false, removed_at := some now }, ?_, rfl, rfl, rfl⟩
    refine List.mem_append_left _ ?_
    have : (fun c : SchemaColumn =>
        if c.is_active = true ∧ c.column_name ∉ inferred.map Prod.fst then
          { c with is_active := false, removed_at := some now }
        else c) c = { c with is_active := false, removed_at := some now } :=
      if_pos ⟨hact, habs⟩
    exact this ▸ List.mem_map_of_mem _ hc

/-- C6 witness. -/
theorem schema_soft_delete_witness :
    ∃ c' ∈ evolveSchema
        [⟨"age", "integer", true, false, none, 0, 1, true, 0, none⟩]
        [("name", "text")] 2 5,
      c'.column_name = "age" ∧ c'.is_active = false ∧
        c'.removed_at = some 5 :=
  (schema_soft_delete
      [⟨"age", "integer", true, false, none, 0, 1, true, 0, none⟩]
      [("name", "text")] 2 5).2
    ⟨"age", "integer", true, false, none, 0, 1, true, 0, none⟩
    (by decide) (by decide) (by decide)

/-! ## Batch ledger (`dataset_batches` DDL part_000 lines 234-246,
`datasetsApi.listBatches` part_008 lines 161-170) -/

/-- A row of `dataset_batches`.  The UUID `batch_id` and the timestamps
are modelled as `Nat`, preserving their ordering. -/
structure Batch where
  batch_id : Nat
  batch_date : Nat
  schema_version : Nat
  row_count : Nat
  size_bytes : Nat
  file_format : String
  status : String
  uploaded_by : String
  created_at : Nat
deriving DecidableEq, Repr

/-- The clustering order of `dataset_batches`:
`CLUSTERING ORDER BY (batch_date DESC, batch_id DESC)` — `a` is newer
than or ties-no-later-than `b`. -/
def batchNewerEq (a b : Batch) : Prop :=
  b.batch_date < a.batch_date ∨
    (a.batch_date = b.batch_date ∧ b.batch_id ≤ a.batch_id)

instance : DecidableRel batchNewerEq := fun a b => by
  unfold batchNewerEq; infer_instance

instance : IsTotal Batch batchNewerEq :=
  ⟨by intro a b; unfold batchNewerEq; omega⟩

instance : IsTrans Batch batchNewerEq :=
  ⟨by intro a b c; unfold batchNewerEq; omega⟩

/-- Modelled from the spec: the backend read path behind
`listBatches(dataset, page, pageSize)` is absent from the sources; per the
`dataset_batches` DDL the storage returns rows in clustering order
(`batch_date DESC, batch_id DESC`), and the ledger windows them by page
and page size. -/
def listBatches (bs : List Batch) (page pageSize : Nat) : List Batch :=
  ((List.insertionSort batchNewerEq bs).drop ((page - 1) * pageSize)).take
    pageSize

/-- C7: every page returned by `listBatches` is ordered newest-first by
batch date with batch id descending as tie-break, and contains only the
dataset's batches. -/
theorem listBatches_sorted (bs : List Batch) (page pageSize : Nat) :
    List.Sorted batchNewerEq (listBatches bs page pageSize) ∧
      ∀ b ∈ listBatches bs page pageSize, b ∈ bs := by
  have hsub : List.Sublist (listBatches bs page pageSize)
      (List.insertionSort batchNewerEq bs) :=
    (List.take_sublist _ _).trans (List.drop_sublist _ _)
  constructor
  · exact List.Pairwise.sublist hsub
      (List.sorted_insertionSort batchNewerEq bs)
  · intro b hb
    exact (List.perm_insertionSort batchNewerEq bs).subset (hsub.subset hb)

/-- C7 witness: on a two-batch dataset the newest batch leads page 1 and
every returned batch belongs to the dataset. -/
theorem listBatches_sorted_witness :
    (⟨2, 7, 1, 10, 100, "csv", "ready", "u", 7⟩ : Batch) ∈
      [(⟨1, 3, 1, 10, 100, "csv", "ready", "u", 3⟩ : Batch),
       ⟨2, 7, 1, 10, 100, "csv", "ready", "u", 7⟩] :=
  (listBatches_sorted
      [⟨1, 3, 1, 10, 100, "csv", "ready", "u", 3⟩,
       ⟨2, 7, 1, 10, 100, "csv", "ready", "u", 7⟩] 1 10).2
    ⟨2, 7, 1, 10, 100, "csv", "ready", "u", 7⟩ (by decide)

/-! ## Frontend reducers (`datasetsSlice.ts`) -/

/-- `DatasetColumn` of the frontend dataset types. -/
structure DatasetColumn where
  name : String
  type : String
  nullable : Bool
  masked : Bool
  mask_rule : Option String
  position : Nat
  is_active : Bool
deriving DecidableEq, Repr

/-- JavaScript truthiness of a `string | null` value: `null` and the empty
string are falsy. -/
def truthy : Option String → Bool
  | none => false
  | some s => !s.data.isEmpty

/-- The `updateMaskingRule.fulfilled` reducer (datasetsSlice.ts lines
417-426): find the first column with the given name and mutate it with
`col.mask_rule = maskRule || undefined; col.masked = !!maskRule`. -/
def updateMaskingRuleFulfilled :
    List DatasetColumn → String → Option String → List DatasetColumn
  | [], _, _ => []
  | c :: cs, n, r =>
    if c.name = n then
      { c with mask_rule := if truthy r then r else none
               masked := truthy r } :: cs
    else c :: updateMaskingRuleFulfilled cs n r

/-- No column matches: the reducer leaves the schema unchanged. -/
lemma updateMasking_no_match (l : List DatasetColumn) (n : String)
    (r : Option String) (h : ∀ c ∈ l, c.name ≠ n) :
    updateMaskingRuleFulfilled l n r = l := by
  induction l with
  | nil => rfl
  | cons c cs ih =>
    unfold updateMaskingRuleFulfilled
    rw [if_neg (h c (List.mem_cons_self ..)),
      ih fun c' hc' => h c' (List.mem_cons_of_mem _ hc')]

/-- First match: the reducer rewrites exactly the first matching column
and leaves every other column untouched. -/
lemma updateMasking_first_match (pre : List DatasetColumn)
    (c : DatasetColumn) (post : List DatasetColumn) (n : String)
    (r : Option String) (hpre : ∀ c' ∈ pre, c'.name ≠ n) (hc : c.name = n) :
    updateMaskingRuleFulfilled (pre ++ c :: post) n r =
      pre ++ { c with mask_rule := if truthy r then r else none
                      masked := truthy r } :: post := by
  induction pre with
  | nil =>
    show updateMaskingRuleFulfilled (c :: post) n r = _
    unfold updateMaskingRuleFulfilled
    rw [if_pos hc]
    rfl
  | cons p ps ih =>
    show updateMaskingRuleFulfilled (p :: (ps ++ c :: post)) n r = _
    unfold updateMaskingRuleFulfilled
    rw [if_neg (hpre p (List.mem_cons_self ..)),
      ih fun c' hc' => hpre c' (List.mem_cons_of_mem _ hc')]
    rfl

/-- C9 counterexample: patching with the empty string — a non-null rule —
stores `undefined` and sets `masked` to `false`, while the claim predicts
the new rule is kept and `masked` becomes `true`. -/
theorem updateMasking_cex :
    (updateMaskingRuleFulfilled [⟨"a", "text", true, false, none, 0, true⟩]
        "a" (some "")).map DatasetColumn.mask_rule = [none] ∧
      (updateMaskingRuleFulfilled [⟨"a", "text", true, false, none, 0, true⟩]
        "a" (some "")).map DatasetColumn.masked = [false] ∧
      (some "" : Option String).isSome = true := by
  refine ⟨by decide, by decide, by decide⟩

/-- C9 amended: a fulfilled `updateMaskingRule` rewrites only the first
column named `n`: its `mask_rule` becomes the new rule when that rule is
truthy (non-null and non-empty) and `undefined` otherwise, its `masked`
flag becomes the rule's truthiness, and every other column — and the
whole schema when no column matches — is unchanged. -/
theorem updateMasking_amended (schema : List DatasetColumn) (n : String)
    (r : Option String) :
    ((∀ c ∈ schema, c.name ≠ n) →
      updateMaskingRuleFulfilled schema n r = schema) ∧
    (∀ pre c post, schema = pre ++ c :: post → (∀ c' ∈ pre, c'.name ≠ n) →
      c.name = n →
      updateMaskingRuleFulfilled schema n r =
        pre ++ { c with mask_rule := if truthy r then r else none
                        masked := truthy r } :: post) := by
  refine ⟨updateMasking_no_match schema n r, ?_⟩
  intro pre c post heq hpre hc
  rw [heq]
  exact updateMasking_first_match pre c post n r hpre hc

/-- C9 amended, witness. -/
theorem updateMasking_amended_witness :
    updateMaskingRuleFulfilled
        [⟨"a", "text", true, false, none, 0, true⟩,
         ⟨"b", "text", true, false, none, 1, true⟩] "b" (some "email") =
      [⟨"a", "text", true, false, none, 0, true⟩,
       ⟨"b", "text", true, true, some "email", 1, true⟩] := by
  have h := (updateMasking_amended
      [⟨"a", "text", true, false, none, 0, true⟩,
       ⟨"b", "text", true, false, none, 1, true⟩] "b" (some "email")).2
    [⟨"a", "text", true, false, none, 0, true⟩]
    ⟨"b", "text", true, false, none, 1, true⟩ [] rfl (by decide) (by decide)
  rw [h]
  rfl

/-- `DatasetPermission` of the frontend dataset types. -/
structure DatasetPermission where
  user_email : String
  role : String
  granted_at : String
deriving DecidableEq, Repr

/-- The `grantPermission.fulfilled` reducer (datasetsSlice.ts lines
379-392): update the first entry with the given email in place, or append
a new entry when none exists. -/
def grantPermissionFulfilled :
    List DatasetPermission → String → String → String → List DatasetPermission
  | [], e, r, ts => [⟨e, r, ts⟩]
  | p :: ps, e, r, ts =>
    if p.user_email = e then { p with role := r } :: ps
    else p :: grantPermissionFulfilled ps e r ts

/-- The emails after a grant: unchanged when the email was present,
appended once otherwise. -/
lemma grantPermission_emails (ps : List DatasetPermission) (e r ts : String) :
    (grantPermissionFulfilled ps e r ts).map DatasetPermission.user_email =
      if e ∈ ps.map DatasetPermission.user_email then
        ps.map DatasetPermission.user_email
      else ps.map DatasetPermission.user_email ++ [e] := by
  induction ps with
  | nil => simp [grantPermissionFulfilled]
  | cons p ps ih =>
    by_cases hp : p.user_email = e
    · unfold grantPermissionFulfilled
      rw [if_pos hp]
      simp [hp]
    · unfold grantPermissionFulfilled
      rw [if_neg hp]
      have hne : ¬ e = p.user_email := fun h => hp h.symm
      by_cases hm : e ∈ ps.map DatasetPermission.user_email <;>
        simp [ih, hm, hne]

/-- After a grant, some entry carries the email with the granted role. -/
lemma grantPermission_role (ps : List DatasetPermission) (e r ts : String) :
    ∃ p ∈ grantPermissionFulfilled ps e r ts,
      p.user_email = e ∧ p.role = r := by
  induction ps with
  | nil => exact ⟨⟨e, r, ts⟩, List.mem_singleton_self _, rfl, rfl⟩
  | cons p ps ih =>
    by_cases hp : p.user_email = e
    · refine ⟨{ p with role := r }, ?_, hp, rfl⟩
      unfold grantPermissionFulfilled
      rw [if_pos hp]
      exact List.mem_cons_self ..
    · obtain ⟨q, hq, hqe, hqr⟩ := ih
      refine ⟨q, ?_, hqe, hqr⟩
      unfold grantPermissionFulfilled
      rw [if_neg hp]
      exact List.mem_cons_of_mem _ hq

/-- C10: when the permission list has pairwise-distinct user emails, a
fulfilled `grantPermission` preserves that uniqueness: a present email is
updated in place (the email list is unchanged, and an entry now carries
the granted role), and a new email is appended exactly once. -/
theorem grantPermission_unique (ps : List DatasetPermission) (e r ts : String)
    (h : (ps.map DatasetPermission.user_email).Nodup) :
    ((grantPermissionFulfilled ps e r ts).map
        DatasetPermission.user_email).Nodup ∧
      (e ∈ ps.map DatasetPermission.user_email →
        (grantPermissionFulfilled ps e r ts).map DatasetPermission.user_email
          = ps.map DatasetPermission.user_email) ∧
      (e ∉ ps.map DatasetPermission.user_email →
        (grantPermissionFulfilled ps e r ts).map DatasetPermission.user_email
          = ps.map DatasetPermission.user_email ++ [e]) ∧
      ∃ p ∈ grantPermissionFulfilled ps e r ts,
        p.user_email = e ∧ p.role = r := by
  refine ⟨?_, ?_, ?_, grantPermission_role ps e r ts⟩
  · rw [grantPermission_emails]
    by_cases hm : e ∈ ps.map DatasetPermission.user_email
    · rwa [if_pos hm]
    · rw [if_neg hm]
      simp only [List.nodup_append, List.nodup_cons, List.not_mem_nil,
        not_false_iff, List.nodup_nil, true_and, and_true]
      refine ⟨h, ?_⟩
      intro a ha hae
      rw [List.mem_singleton] at hae
      exact hm (hae ▸ ha)
  · intro hm
    rw [grantPermission_emails, if_pos hm]
  · intro hm
    rw [grantPermission_emails, if_neg hm]

/-- C10 witness. -/
theorem grantPermission_unique_witness :
    ((grantPermissionFulfilled [⟨"u@x.com", "viewer", "t0"⟩]
        "u@x.com" "contributor" "t1").map
          DatasetPermission.user_email).Nodup ∧
      (grantPermissionFulfilled [⟨"u@x.com", "viewer", "t0"⟩]
        "u@x.com" "contributor" "t1").map DatasetPermission.user_email
          = ["u@x.com"] := by
  have h := grantPermission_unique [⟨"u@x.com", "viewer", "t0"⟩]
    "u@x.com" "contributor" "t1" (by decide)
  exact ⟨h.1, h.2.1 (by decide)⟩

end DatasetManager
